import Mathlib

/-!
Shallow embedding of `src/app.py` (Product-Ingredient-Decoder), a Streamlit
app that resizes a product image for display, persists uploaded bytes to a
temporary file, and dispatches one analysis call to an external agent.

The embedding models:
* the dimension/encoding part of `resize_image_for_display` (app.py:48-62),
  including the stream-cursor side effect of the `seek(0)` on line 54;
* the cached agent construction `get_agent` (app.py:64-73, `@st.cache_resource`)
  as explicit process state holding an optional agent instance;
* `analyze_image` (app.py:75-88) with Python exception propagation made
  explicit (`PyResult`): the external `agent.run` may raise, the
  `except Exception` clause on line 87 catches anything raised in the `try`;
* `save_uploaded_file` (app.py:90-98) over an explicit association-list
  filesystem, with the nondeterministic fresh temp name as a parameter;
* the button-triggered flows of `main` (upload tab lines 149-159, identical
  camera tab lines 169-179, example section lines 182-194) and the session
  state set by `create_example_card` (app.py:100-107).

The resize arithmetic `int(350 * (h / w))` runs in IEEE-754 binary64.  Two
models of it appear below: `resizeImage` is the exact-real-arithmetic
abstraction (floor `(350 * h) / w` in natural division), adequate for
properties with at least a ±1 tolerance, since the correctly-rounded float
result stays within one unit of the exact floor in the ranges involved; and
`resizeHeightFloat` is the binary64-faithful model (correct rounding to a
53-bit significand, ties to even, exact for the normal non-overflowing
range used here), needed where one unit of float truncation is the whole
question.
-/

namespace ProductDecoder

/-- `MAX_IMAGE_WIDTH = 350` (app.py:16). -/
def MAX_IMAGE_WIDTH : ℕ := 350

/-- A decoded raster image, abstracted to its pixel dimensions. -/
structure Image where
  width : ℕ
  height : ℕ
deriving DecidableEq

/-- The dimension transform of `resize_image_for_display` (app.py:56-58):
`aspect_ratio = img.height / img.width`, `new_height = int(MAX_IMAGE_WIDTH * aspect_ratio)`,
then `img.resize((MAX_IMAGE_WIDTH, new_height))`, in exact real arithmetic:
`int` of the nonnegative exact quotient is natural-number division.  This
abstracts away binary64 rounding (the float result can sit one unit below
this floor when the exact quotient is within a few ulps of an integer); the
float-faithful height is `resizeHeightFloat` below. -/
def resizeImage (img : Image) : Image :=
  { width := MAX_IMAGE_WIDTH, height := MAX_IMAGE_WIDTH * img.height / img.width }

/-- A byte stream as handed to the resizer by `st.file_uploader` /
`st.camera_input`: the raw bytes, the read cursor, and the raster image the
bytes decode to (the embedding only models decodable streams; the
undecodable case raises into the surrounding `except` blocks of `main`). -/
structure ImgStream where
  data : List ℕ
  pos : ℕ
  decoded : Image
deriving DecidableEq

/-- Stream branch of `resize_image_for_display` (app.py:52-58):
`img = Image.open(image_file)` only reads the header lazily, then
`image_file.seek(0)` (line 54) moves the cursor to the start — but the
`img.resize(...)` on line 58 triggers PIL's lazy `load()`, which reads the
pixel data from the stream *after* that seek, leaving the caller's cursor
at end-of-data.  Returns the re-encoded display buffer (abstracted to its
decoded dimensions) together with the stream as the caller sees it
afterwards. -/
def resize_image_for_display_stream (s : ImgStream) : Image × ImgStream :=
  let img := s.decoded
  let s1 : ImgStream := { s with pos := 0 }
  let s2 : ImgStream := { s1 with pos := s.data.length }
  (resizeImage img, s2)

/-- The duck-typed argument of `resize_image_for_display` (app.py:50):
either a filesystem path (with the image that file decodes to) or a
byte stream. -/
inductive ImageFile where
  | path (p : String) (decoded : Image)
  | stream (s : ImgStream)
deriving DecidableEq

/-- `resize_image_for_display` (app.py:48-62): open, resize to width 350
preserving aspect ratio, re-encode as PNG.  The PNG buffer is abstracted to
the image it encodes; the function also returns the input as the caller
sees it afterwards (the stream branch moves the cursor). -/
def resize_image_for_display : ImageFile → Image × ImageFile
  | .path p d => (resizeImage d, .path p d)
  | .stream s =>
      let r := resize_image_for_display_stream s
      (r.1, .stream r.2)

/-- Result of running one step of Python code: either a normal return or an
uncaught exception propagating to the caller. -/
inductive PyResult (α : Type) where
  | ret (a : α)
  | exn (msg : String)
deriving DecidableEq

/-- Behaviour of the external world during one `agent.run` invocation
(app.py:80-83): the hosted service either produces response text or the call
raises (network, auth, service error, malformed response). -/
inductive CallOutcome where
  | success (content : String)
  | failure (msg : String)
deriving DecidableEq

/-- What the app renders to the page during one flow: the analysis markdown
(app.py:85-86), an `st.error` message, or a displayed image buffer
(`st.image`). -/
inductive Rendered where
  | analysisResults (content : String)
  | errorMsg (msg : String)
  | displayedImage (img : Image)
deriving DecidableEq

/-- Process-wide state behind `@st.cache_resource` (app.py:64): the cached
agent instance, identified by construction number, and how many times the
`Agent(...)` constructor has run in this process. -/
structure ProcState where
  cachedAgent : Option ℕ
  constructions : ℕ
deriving DecidableEq

/-- Process start: nothing cached yet, no construction has run. -/
def initProcState : ProcState := { cachedAgent := none, constructions := 0 }

/-- `get_agent` (app.py:64-73): under `@st.cache_resource` the body
`Agent(model=Gemini(...), ...)` runs only on a cache miss; afterwards the
cached instance is returned unchanged. -/
def get_agent (s : ProcState) : ℕ × ProcState :=
  match s.cachedAgent with
  | some a => (a, s)
  | none =>
      (s.constructions,
       { cachedAgent := some s.constructions, constructions := s.constructions + 1 })

/-- The external `agent.run(...)` call (app.py:80-83): returns the response
content or raises. -/
def agent_run (outcome : CallOutcome) : PyResult String :=
  match outcome with
  | .success c => .ret c
  | .failure e => .exn e

/-- `analyze_image` (app.py:75-88): fetch the cached agent (line 77, outside
the `try`), run the external call inside `try`, render the results on
success, and on any exception render `st.error(f"Error during analysis: ...")`
(line 88) instead of re-raising.  The returned `PyResult` is what the caller
of `analyze_image` observes. -/
def analyze_image (s : ProcState) (outcome : CallOutcome) : ProcState × PyResult Rendered :=
  let g := get_agent s
  match agent_run outcome with
  | .ret content => (g.2, .ret (.analysisResults content))
  | .exn e => (g.2, .ret (.errorMsg ("Error during analysis: " ++ e)))

/-- The working directory as an association list from file path to byte
content (`NamedTemporaryFile(dir='.')` creates files there). -/
structure FS where
  files : List (String × List ℕ)
deriving DecidableEq

/-- Content of the file at `p`, if it exists. -/
def readFile (p : String) (fs : FS) : Option (List ℕ) :=
  (fs.files.find? (fun f => f.1 == p)).map (fun f => f.2)

/-- `os.unlink(path)` (app.py:157/177): remove the file at `path`. -/
def unlink (p : String) (fs : FS) : FS :=
  ⟨fs.files.eraseP (fun f => f.1 == p)⟩

/-- How the `NamedTemporaryFile` block inside `save_uploaded_file` goes:
success; the `NamedTemporaryFile(...)` constructor itself raises
(permissions — no file exists yet); or the constructor succeeds and the
subsequent `f.write(...)` raises (disk full) after `written` bytes made it
to disk — with `delete=False` the `with` block then closes the file
without removing it, so that file stays behind. -/
inductive SaveOutcome where
  | ok
  | createFail (msg : String)
  | writeFail (msg : String) (written : List ℕ)
deriving DecidableEq

/-- `save_uploaded_file` (app.py:90-98): write `uploaded_file.getbuffer()`
(the full raw upload bytes, independent of the stream cursor) to a fresh
`NamedTemporaryFile(dir='.', suffix='.jpg', delete=False)` and return its
name; on any exception render `st.error(f"Error saving file: ...")` and
return `None`.  `fresh` is the generated unique temp-name stem.  A write
failure after creation leaves the partially-written file on disk
(`delete=False`, and no cleanup runs on this path). -/
def save_uploaded_file (raw : List ℕ) (fresh : String) (outcome : SaveOutcome)
    (fs : FS) : Option String × FS × List Rendered :=
  match outcome with
  | .ok => (some (fresh ++ ".jpg"), ⟨(fresh ++ ".jpg", raw) :: fs.files⟩, [])
  | .createFail e => (none, fs, [.errorMsg ("Error saving file: " ++ e)])
  | .writeFail e written =>
      (none, ⟨(fresh ++ ".jpg", written) :: fs.files⟩,
       [.errorMsg ("Error saving file: " ++ e)])

/-- Everything observable at the end of one button-triggered flow of `main`:
the process state, the filesystem while the external call ran (if one ran),
the final filesystem, what was rendered, and the path passed to
`analyze_image` as `images=[...]` (if any). -/
structure FlowResult where
  proc : ProcState
  fsAtCall : Option FS
  fs : FS
  shown : List Rendered
  analyzedPath : Option String
deriving DecidableEq

/-- The analyze-button branch of the upload tab, `main` lines 153-157 (the
camera tab, lines 173-177, is the identical code on the captured photo):
`temp_path = save_uploaded_file(...)`; `if temp_path:` then
`analyze_image(temp_path)` followed by `os.unlink(temp_path)`.  An
exception escaping `analyze_image` would skip the `os.unlink` and be caught
by the surrounding `except` (line 158), rendering
`st.error(f"Error processing uploaded image: ...")`. -/
def upload_analyze_click (raw : List ℕ) (fresh : String) (saveO : SaveOutcome)
    (callO : CallOutcome) (s : ProcState) (fs : FS) : FlowResult :=
  match save_uploaded_file raw fresh saveO fs with
  | (some temp_path, fs1, shown1) =>
      match analyze_image s callO with
      | (s1, .ret rend) =>
          { proc := s1, fsAtCall := some fs1, fs := unlink temp_path fs1,
            shown := shown1 ++ [rend], analyzedPath := some temp_path }
      | (s1, .exn e) =>
          { proc := s1, fsAtCall := some fs1, fs := fs1,
            shown := shown1 ++ [.errorMsg ("Error processing uploaded image: " ++ e)],
            analyzedPath := some temp_path }
  | (none, fs1, shown1) =>
      { proc := s, fsAtCall := none, fs := fs1, shown := shown1, analyzedPath := none }

/-- The whole upload-tab body for a present upload, `main` lines 149-159:
resize the stream for display, show it, and if the analyze button was
pressed run `upload_analyze_click` on the stream's raw buffer. -/
def upload_tab (stream : ImgStream) (pressed : Bool) (fresh : String)
    (saveO : SaveOutcome) (callO : CallOutcome) (s : ProcState) (fs : FS) : FlowResult :=
  let r := resize_image_for_display_stream stream
  let shown0 := [Rendered.displayedImage r.1]
  if pressed then
    let res := upload_analyze_click stream.data fresh saveO callO s fs
    { res with shown := shown0 ++ res.shown }
  else
    { proc := s, fsAtCall := none, fs := fs, shown := shown0, analyzedPath := none }

/-- Per-session interaction state (`st.session_state`, app.py:114-117). -/
structure SessionState where
  selected_example : Option String
  analyze_clicked : Bool
deriving DecidableEq

/-- Effect of pressing an example card's button, `create_example_card`
(app.py:104-106): record the example path and clear the analyzed flag. -/
def create_example_card_click (path : String) (st : SessionState) : SessionState :=
  { st with selected_example := some path, analyze_clicked := false }

/-- The Analyze-Example guard of `main`, lines 190-192:
`if st.button(...) and not st.session_state.analyze_clicked:` set
`analyze_clicked = True` and call `analyze_image` on the selected example
path.  The returned `Bool` records whether `analyze_image` was invoked. -/
def example_analyze_click (pressed : Bool) (callO : CallOutcome)
    (st : SessionState) (s : ProcState) : SessionState × ProcState × Bool :=
  if pressed && !st.analyze_clicked then
    let st1 := { st with analyze_clicked := true }
    let r := analyze_image s callO
    (st1, r.1, true)
  else
    (st, s, false)

/-- The sequence of agent instances used by a run of analysis calls: each
call goes through `analyze_image`, which fetches its agent via `get_agent`
(app.py:77). -/
def analyses_trace (s : ProcState) : List CallOutcome → ProcState × List ℕ
  | [] => (s, [])
  | o :: os =>
      let a := (get_agent s).1
      let s1 := (analyze_image s o).1
      let rest := analyses_trace s1 os
      (rest.1, a :: rest.2)

/-- Floor of the binary logarithm of a natural number, by structural
recursion on an explicit fuel so the kernel can evaluate it. -/
def log2fuel : ℕ → ℕ → ℕ
  | 0, _ => 0
  | fuel + 1, n => if n ≤ 1 then 0 else log2fuel fuel (n / 2) + 1

/-- `log2nat n = ⌊log₂ n⌋` for `n ≥ 1`. -/
def log2nat (n : ℕ) : ℕ := log2fuel n n

/-- Round the fraction `n / d` (with `d > 0`) to the nearest natural
number, ties to even — the IEEE-754 default rounding of a value halfway
between two representables. -/
def rneNat (n d : ℕ) : ℕ :=
  if 2 * (n % d) < d then n / d
  else if d < 2 * (n % d) then n / d + 1
  else if (n / d) % 2 = 0 then n / d else n / d + 1

/-- The binade exponent of the positive fraction `n / d`: the unique `e`
with `2 ^ e ≤ n / d < 2 ^ (e + 1)`, computed from the bit lengths of
numerator and denominator (`2 ^ k ≤ n / d` iff
`d * 2 ^ max k 0 ≤ n * 2 ^ max (-k) 0`). -/
def qexpND (n d : ℕ) : ℤ :=
  if d * 2 ^ ((log2nat n : ℤ) - (log2nat d : ℤ)).toNat
      ≤ n * 2 ^ (-((log2nat n : ℤ) - (log2nat d : ℤ))).toNat
  then (log2nat n : ℤ) - (log2nat d : ℤ)
  else (log2nat n : ℤ) - (log2nat d : ℤ) - 1

/-- Round the nonnegative fraction `n / d` to the nearest IEEE-754 binary64
value, returned as a dyadic pair `(m, t)` denoting `m * 2 ^ t`: scale the
fraction into the binade `[2^52, 2^53)`, round the significand to an
integer with ties to even, and keep the scale.  Exact for the normal,
non-overflowing range this program works in (no subnormals, no
infinities). -/
def flND (n d : ℕ) : ℕ × ℤ :=
  (rneNat (n * 2 ^ (52 - qexpND n d).toNat) (d * 2 ^ (qexpND n d - 52).toNat),
   qexpND n d - 52)

/-- The binary64 product `MAX_IMAGE_WIDTH * x` of the constant 350 with the
dyadic value `x = m * 2 ^ t`: the exact product as a fraction, correctly
rounded back to binary64. -/
def floatTimes350 (p : ℕ × ℤ) : ℕ × ℤ :=
  flND (MAX_IMAGE_WIDTH * p.1 * 2 ^ p.2.toNat) (2 ^ (-p.2).toNat)

/-- `int(x)` of a nonnegative dyadic `x = m * 2 ^ t`: truncation toward
zero, i.e. the floor. -/
def dyadicFloor (m : ℕ) (t : ℤ) : ℕ :=
  if 0 ≤ t then m * 2 ^ t.toNat else m / 2 ^ (-t).toNat

/-- The binary64-faithful height computation of app.py:56-57:
`aspect_ratio = img.height / img.width` is a correctly-rounded double
division, `MAX_IMAGE_WIDTH * aspect_ratio` a correctly-rounded double
product, and `int(...)` truncates the nonnegative result. -/
def resizeHeightFloat (w h : ℕ) : ℕ :=
  dyadicFloor (floatTimes350 (flND h w)).1 (floatTimes350 (flND h w)).2

/-- The dimension transform of `resize_image_for_display` with the float
arithmetic of app.py:56-57 modelled exactly in binary64. -/
def resizeImageFloat (img : Image) : Image :=
  { width := MAX_IMAGE_WIDTH, height := resizeHeightFloat img.width img.height }

lemma resize_height_div (w h : ℕ) :
    (resizeImage ⟨w, h⟩).height = 350 * h / w := rfl

/-- C2: for every decodable input of width `W > 0` and height `H`, the
normalizer's output width is exactly 350 and its height is within ±1 of
`round(350*H/W)`. -/
theorem resize_dims_spec (w h : ℕ) (hw : 0 < w) :
    (resizeImage ⟨w, h⟩).width = 350 ∧
    |((resizeImage ⟨w, h⟩).height : ℤ) - round ((350 * (h : ℚ)) / (w : ℚ))| ≤ 1 := by
  refine ⟨rfl, ?_⟩
  have hw' : (0 : ℚ) < (w : ℚ) := by exact_mod_cast hw
  rw [resize_height_div]
  set d : ℕ := 350 * h / w with hd
  set q : ℚ := (350 * (h : ℚ)) / (w : ℚ) with hq
  have hdm : w * d + 350 * h % w = 350 * h := Nat.div_add_mod (350 * h) w
  have hr : 350 * h % w < w := Nat.mod_lt _ hw
  have h1 : (d : ℚ) ≤ q := by
    rw [hq, le_div_iff₀ hw']
    have : d * w ≤ 350 * h := Nat.div_mul_le_self (350 * h) w
    exact_mod_cast this
  have h2 : q < (d : ℚ) + 1 := by
    rw [hq, div_lt_iff₀ hw']
    have : 350 * h < (d + 1) * w := by
      calc 350 * h = w * d + 350 * h % w := hdm.symm
        _ < w * d + w := by omega
        _ = (d + 1) * w := by ring
    exact_mod_cast this
  have habs1 : |(d : ℚ) - q| < 1 := by
    rw [abs_sub_lt_iff]
    constructor <;> linarith
  have habs2 : |q - (round q : ℤ)| ≤ 1 / 2 := abs_sub_round q
  have habs : |(d : ℚ) - (round q : ℤ)| < 3 / 2 := by
    calc |(d : ℚ) - (round q : ℤ)|
        ≤ |(d : ℚ) - q| + |q - (round q : ℤ)| := abs_sub_le _ q _
      _ < 3 / 2 := by linarith
  have hlt2 : |(d : ℤ) - round q| < 2 := by
    have hcast : ((|(d : ℤ) - round q| : ℤ) : ℚ) = |(d : ℚ) - (round q : ℤ)| := by
      push_cast
      rw [abs_sub_comm]
    have : ((|(d : ℤ) - round q| : ℤ) : ℚ) < 2 := by
      rw [hcast]; linarith
    exact_mod_cast this
  omega

/-- Witness for C2 at the spec's scenario: a 1000×500 input resizes to
exactly 350×175. -/
theorem resize_dims_spec_witness :
    (0 < 1000 ∧
      ((resizeImage ⟨1000, 500⟩).width = 350 ∧
        |((resizeImage ⟨1000, 500⟩).height : ℤ)
            - round ((350 * ((500 : ℕ) : ℚ)) / ((1000 : ℕ) : ℚ))| ≤ 1)) ∧
    resizeImage ⟨1000, 500⟩ = ⟨350, 175⟩ :=
  ⟨⟨by norm_num, resize_dims_spec 1000 500 (by norm_num)⟩, by decide⟩

lemma zpow_shift (j k : ℕ) : (2 : ℚ) ^ ((j : ℤ) - (k : ℤ)) = 2 ^ j / 2 ^ k := by
  rw [zpow_sub₀ (by norm_num : (2 : ℚ) ≠ 0), zpow_natCast, zpow_natCast]

lemma log2fuel_spec : ∀ fuel n : ℕ, 1 ≤ n → n ≤ fuel →
    2 ^ log2fuel fuel n ≤ n ∧ n < 2 ^ (log2fuel fuel n + 1) := by
  intro fuel
  induction fuel with
  | zero => intro n h1 h2; omega
  | succ fuel ih =>
      intro n h1 h2
      by_cases hn : n ≤ 1
      · have hn1 : n = 1 := by omega
        subst hn1
        simp [log2fuel]
      · have hrec := ih (n / 2) (by omega) (by omega)
        have e1 : 2 ^ (log2fuel fuel (n / 2) + 1) = 2 * 2 ^ log2fuel fuel (n / 2) := by
          ring
        have e2 : 2 ^ (log2fuel fuel (n / 2) + 1 + 1)
            = 2 * 2 ^ (log2fuel fuel (n / 2) + 1) := by
          ring
        simp only [log2fuel, if_neg hn]
        refine ⟨?_, ?_⟩ <;> omega

lemma log2nat_spec (n : ℕ) (h1 : 1 ≤ n) :
    2 ^ log2nat n ≤ n ∧ n < 2 ^ (log2nat n + 1) :=
  log2fuel_spec n n h1 le_rfl

lemma rneNat_err (n d : ℕ) (hd : 0 < d) :
    |((rneNat n d : ℕ) : ℚ) - (n : ℚ) / (d : ℚ)| ≤ 1 / 2 := by
  have hdQ : (0 : ℚ) < (d : ℚ) := by exact_mod_cast hd
  have hcast : ((d : ℚ)) * ((n / d : ℕ) : ℚ) + ((n % d : ℕ) : ℚ) = (n : ℚ) := by
    exact_mod_cast Nat.div_add_mod n d
  have hksplit : (n : ℚ) / d = ((n / d : ℕ) : ℚ) + ((n % d : ℕ) : ℚ) / d := by
    rw [← hcast]
    field_simp
    ring
  have hrd0 : (0 : ℚ) ≤ ((n % d : ℕ) : ℚ) / d := by positivity
  rw [rneNat]
  split_ifs with c1 c2 c3
  · have hhalf : ((n % d : ℕ) : ℚ) / d < 1 / 2 := by
      rw [div_lt_iff₀ hdQ]
      have hc : (2 * (n % d) : ℕ) < (d : ℕ) := c1
      have hcq : 2 * ((n % d : ℕ) : ℚ) < (d : ℚ) := by exact_mod_cast hc
      linarith
    rw [hksplit, abs_le]
    constructor <;> linarith
  · have hhalf : (1 : ℚ) / 2 < ((n % d : ℕ) : ℚ) / d := by
      rw [lt_div_iff₀ hdQ]
      have hc : (d : ℕ) < 2 * (n % d) := c2
      have hcq : (d : ℚ) < 2 * ((n % d : ℕ) : ℚ) := by exact_mod_cast hc
      linarith
    have hrd1 : ((n % d : ℕ) : ℚ) / d < 1 := by
      rw [div_lt_one hdQ]
      exact_mod_cast Nat.mod_lt n hd
    rw [hksplit, abs_le]
    push_cast
    constructor <;> linarith
  · have htie : ((n % d : ℕ) : ℚ) / d = 1 / 2 := by
      have hc : 2 * (n % d) = d := by omega
      have hcq : 2 * ((n % d : ℕ) : ℚ) = (d : ℚ) := by exact_mod_cast hc
      rw [div_eq_iff (ne_of_gt hdQ)]
      linarith
    rw [hksplit, htie, abs_le]
    constructor <;> linarith
  · have htie : ((n % d : ℕ) : ℚ) / d = 1 / 2 := by
      have hc : 2 * (n % d) = d := by omega
      have hcq : 2 * ((n % d : ℕ) : ℚ) = (d : ℚ) := by exact_mod_cast hc
      rw [div_eq_iff (ne_of_gt hdQ)]
      linarith
    rw [hksplit, htie, abs_le]
    push_cast
    constructor <;> linarith

lemma cond_iff (n d : ℕ) (k : ℤ) (hd : 0 < d) :
    d * 2 ^ k.toNat ≤ n * 2 ^ (-k).toNat ↔ (2 : ℚ) ^ k ≤ (n : ℚ) / d := by
  have hdQ : (0 : ℚ) < (d : ℚ) := by exact_mod_cast hd
  rcases le_or_lt 0 k with hk | hk
  · have hknt : ((k.toNat : ℕ) : ℤ) = k := Int.toNat_of_nonneg hk
    rw [Int.toNat_of_nonpos (by omega : -k ≤ 0), pow_zero, mul_one, ← hknt, zpow_natCast,
      le_div_iff₀ hdQ]
    constructor
    · intro hle
      have hle' : ((d * 2 ^ k.toNat : ℕ) : ℚ) ≤ (n : ℚ) := by exact_mod_cast hle
      push_cast at hle'
      linarith
    · intro hle
      have hle' : ((d * 2 ^ k.toNat : ℕ) : ℚ) ≤ ((n : ℕ) : ℚ) := by push_cast; linarith
      exact_mod_cast hle'
  · have hknt : (((-k).toNat : ℕ) : ℤ) = -k := Int.toNat_of_nonneg (by omega)
    rw [Int.toNat_of_nonpos hk.le, pow_zero, mul_one]
    have hzk : (2 : ℚ) ^ k = ((2 : ℚ) ^ ((-k).toNat : ℕ))⁻¹ := by
      rw [← zpow_natCast (2 : ℚ) (-k).toNat, hknt, zpow_neg, inv_inv]
    rw [hzk, inv_eq_one_div, div_le_div_iff₀ (by positivity) hdQ]
    constructor
    · intro hle
      have hle' : ((d : ℕ) : ℚ) ≤ ((n * 2 ^ (-k).toNat : ℕ) : ℚ) := by exact_mod_cast hle
      push_cast at hle'
      linarith
    · intro hle
      have hle' : ((d : ℕ) : ℚ) ≤ ((n * 2 ^ (-k).toNat : ℕ) : ℚ) := by push_cast; linarith
      exact_mod_cast hle'

lemma qexpND_spec (n d : ℕ) (hn : 1 ≤ n) (hd : 1 ≤ d) :
    (2 : ℚ) ^ qexpND n d ≤ (n : ℚ) / d ∧ (n : ℚ) / d < 2 ^ (qexpND n d + 1) := by
  have hdQ : (0 : ℚ) < (d : ℚ) := by exact_mod_cast hd
  rw [qexpND]
  obtain ⟨ha1, ha2⟩ := log2nat_spec n hn
  obtain ⟨hb1, hb2⟩ := log2nat_spec d hd
  have hA1 : (2 : ℚ) ^ log2nat n ≤ (n : ℚ) := by exact_mod_cast ha1
  have hA2 : (n : ℚ) < 2 ^ (log2nat n + 1) := by exact_mod_cast ha2
  have hB1 : (2 : ℚ) ^ log2nat d ≤ (d : ℚ) := by exact_mod_cast hb1
  have hB2 : (d : ℚ) < 2 ^ (log2nat d + 1) := by exact_mod_cast hb2
  set a := log2nat n with hadef
  set b := log2nat d with hbdef
  have hupper : (n : ℚ) / d < 2 ^ ((a : ℤ) - b + 1) := by
    rw [show (a : ℤ) - b + 1 = ((a + 1 : ℕ) : ℤ) - (b : ℤ) by push_cast; ring, zpow_shift,
      div_lt_div_iff₀ hdQ (by positivity)]
    calc (n : ℚ) * 2 ^ b < 2 ^ (a + 1) * 2 ^ b := mul_lt_mul_of_pos_right hA2 (by positivity)
      _ ≤ 2 ^ (a + 1) * d := mul_le_mul_of_nonneg_left hB1 (by positivity)
  have hlower : (2 : ℚ) ^ ((a : ℤ) - b - 1) ≤ (n : ℚ) / d := by
    rw [show (a : ℤ) - b - 1 = ((a : ℕ) : ℤ) - ((b + 1 : ℕ) : ℤ) by push_cast; ring, zpow_shift,
      div_le_div_iff₀ (by positivity) hdQ]
    calc (2 : ℚ) ^ a * d ≤ (n : ℚ) * d := mul_le_mul_of_nonneg_right hA1 hdQ.le
      _ ≤ (n : ℚ) * 2 ^ (b + 1) := mul_le_mul_of_nonneg_left hB2.le (by positivity)
  split_ifs with hc
  · exact ⟨(cond_iff n d ((a : ℤ) - b) (by omega)).mp hc, hupper⟩
  · refine ⟨hlower, ?_⟩
    rw [show (a : ℤ) - b - 1 + 1 = (a : ℤ) - b by ring]
    exact lt_of_not_ge fun hge => hc ((cond_iff n d ((a : ℤ) - b) (by omega)).mpr hge)

lemma int_floor_nat_div (a b : ℕ) (hb : 0 < b) :
    ⌊(a : ℚ) / (b : ℚ)⌋ = ((a / b : ℕ) : ℤ) := by
  have hbQ : (0 : ℚ) < (b : ℚ) := by exact_mod_cast hb
  rw [Int.floor_eq_iff]
  constructor
  · rw [Int.cast_natCast, le_div_iff₀ hbQ]
    exact_mod_cast Nat.div_mul_le_self a b
  · rw [div_lt_iff₀ hbQ]
    have hlt : a < (a / b + 1) * b := by
      have h1 := Nat.div_add_mod a b
      have h2 := Nat.mod_lt a hb
      calc a = b * (a / b) + a % b := h1.symm
        _ < b * (a / b) + b := by omega
        _ = (a / b + 1) * b := by ring
    push_cast
    exact_mod_cast hlt

lemma div_pow_shift (x y : ℚ) (j k : ℕ) :
    x * 2 ^ j / (y * 2 ^ k) = x / y * 2 ^ ((j : ℤ) - k) := by
  rw [zpow_shift, div_mul_div_comm]

lemma mul_pow_shift (c : ℚ) (j k : ℕ) :
    c * 2 ^ j / 2 ^ k = c * 2 ^ ((j : ℤ) - k) := by
  rw [zpow_shift, mul_div_assoc]

lemma flND_err (n d : ℕ) (hn : 1 ≤ n) (hd : 1 ≤ d) :
    |((flND n d).1 : ℚ) * 2 ^ (flND n d).2 - (n : ℚ) / d| ≤ ((n : ℚ) / d) / 2 ^ 53 := by
  obtain ⟨he1, he2⟩ := qexpND_spec n d hn hd
  have hdQ : (0 : ℚ) < (d : ℚ) := by exact_mod_cast hd
  simp only [flND]
  set e := qexpND n d with hedef
  set N : ℕ := n * 2 ^ (52 - e).toNat with hNdef
  set D : ℕ := d * 2 ^ (e - 52).toNat with hDdef
  have hD : 0 < D := Nat.mul_pos hd (pow_pos (by norm_num) _)
  have hND : (N : ℚ) / D = ((n : ℚ) / d) * 2 ^ ((52 : ℤ) - e) := by
    rw [hNdef, hDdef]
    push_cast
    rw [div_pow_shift]
    rw [show (((52 - e).toNat : ℕ) : ℤ) - (((e - 52).toNat : ℕ) : ℤ) = 52 - e by omega]
  have hq_recover : (n : ℚ) / d = ((N : ℚ) / D) * 2 ^ (e - 52) := by
    rw [hND, mul_assoc, ← zpow_add₀ (by norm_num : (2 : ℚ) ≠ 0)]
    rw [show (52 : ℤ) - e + (e - 52) = 0 by ring, zpow_zero, mul_one]
  have hkey : ((rneNat N D : ℕ) : ℚ) * 2 ^ (e - 52) - (n : ℚ) / d
      = (((rneNat N D : ℕ) : ℚ) - (N : ℚ) / D) * 2 ^ (e - 52) := by
    rw [hq_recover]
    ring
  rw [hkey, abs_mul, abs_of_pos (show (0 : ℚ) < 2 ^ (e - 52) by positivity)]
  have hb1 : |((rneNat N D : ℕ) : ℚ) - (N : ℚ) / D| * 2 ^ (e - 52)
      ≤ 1 / 2 * 2 ^ (e - 52) :=
    mul_le_mul_of_nonneg_right (rneNat_err N D hD) (by positivity)
  have hb2 : (1 : ℚ) / 2 * 2 ^ (e - 52) = 2 ^ (e - 53) := by
    rw [show e - 53 = -1 + (e - 52) by ring, zpow_add₀ (by norm_num : (2 : ℚ) ≠ 0)]
    norm_num
  have hb3 : (2 : ℚ) ^ (e - 53) ≤ ((n : ℚ) / d) / 2 ^ 53 := by
    rw [show e - 53 = e - ((53 : ℕ) : ℤ) by norm_num, zpow_sub₀ (by norm_num : (2 : ℚ) ≠ 0),
      zpow_natCast]
    gcongr
  linarith

lemma dyadicFloor_eq (m : ℕ) (t : ℤ) :
    (dyadicFloor m t : ℤ) = ⌊(m : ℚ) * 2 ^ t⌋ := by
  rw [dyadicFloor]
  split_ifs with ht
  · have h1 : (m : ℚ) * 2 ^ t = ((m * 2 ^ t.toNat : ℕ) : ℚ) := by
      push_cast
      rw [← zpow_natCast (2 : ℚ) t.toNat, Int.toNat_of_nonneg ht]
    rw [h1, Int.floor_natCast]
  · push_neg at ht
    have h1 : (m : ℚ) * 2 ^ t = (m : ℚ) / ((2 ^ (-t).toNat : ℕ) : ℚ) := by
      push_cast
      rw [div_eq_mul_inv, ← zpow_natCast (2 : ℚ) (-t).toNat,
        Int.toNat_of_nonneg (by omega : (0 : ℤ) ≤ -t), ← zpow_neg, neg_neg]
    rw [h1, int_floor_nat_div _ _ (pow_pos (by norm_num) _)]

/-- C8 counterexample: in the program's binary64 arithmetic a 350×29 input
resizes to 350×28 (`int(350 * (29 / 350)) = 28`, since the correctly
rounded double `350.0 * (29 / 350.0)` lands just below 29), so applying the
normalizer to an already-350-wide image does not leave its dimensions
unchanged. -/
theorem resize_width350_idempotent_cex :
    resizeImageFloat ⟨350, 29⟩ ≠ ⟨350, 29⟩ := by
  decide

/-- C8 amended: for an already-350-wide input of height at most `2 ^ 51`,
the normalizer keeps the width at 350 and the output height is either the
input height or exactly one unit below it — binary64 rounding of
`int(350 * (h / 350))` can truncate one unit (as at height 29), but never
more. -/
theorem resize_width350_float (h : ℕ) (hb : h ≤ 2 ^ 51) :
    (resizeImageFloat ⟨350, h⟩).width = 350 ∧
    ((resizeImageFloat ⟨350, h⟩).height = h ∨
      (resizeImageFloat ⟨350, h⟩).height + 1 = h) := by
  refine ⟨rfl, ?_⟩
  show resizeHeightFloat 350 h = h ∨ resizeHeightFloat 350 h + 1 = h
  rcases Nat.eq_zero_or_pos h with h0 | h0
  · subst h0
    left
    decide
  · simp only [resizeHeightFloat, floatTimes350, MAX_IMAGE_WIDTH]
    set p1 := flND h 350 with hp1def
    set n2 : ℕ := 350 * p1.1 * 2 ^ p1.2.toNat with hn2def
    set d2 : ℕ := 2 ^ (-p1.2).toNat with hd2def
    set p2 := flND n2 d2 with hp2def
    have hhQ1 : (1 : ℚ) ≤ (h : ℚ) := by exact_mod_cast h0
    have hhb : (h : ℚ) ≤ 2 ^ 51 := by exact_mod_cast hb
    have e1 := flND_err h 350 h0 (by norm_num)
    rw [← hp1def] at e1
    push_cast at e1
    have e1c := abs_le.mp e1
    have hx1pos : 0 < (p1.1 : ℚ) * 2 ^ p1.2 := by
      have hq : (0 : ℚ) < (h : ℚ) / 350 := by positivity
      nlinarith [e1c.1, e1c.2]
    have hm1 : 0 < p1.1 := by
      rcases Nat.eq_zero_or_pos p1.1 with hz | hpos
      · rw [hz] at hx1pos
        norm_num at hx1pos
      · exact hpos
    have hn2pos : 0 < n2 := by
      rw [hn2def]
      exact Nat.mul_pos (Nat.mul_pos (by norm_num) hm1) (pow_pos (by norm_num) _)
    have hd2pos : 0 < d2 := by
      rw [hd2def]
      exact pow_pos (by norm_num) _
    have e2 := flND_err n2 d2 hn2pos hd2pos
    rw [← hp2def] at e2
    have hval2 : (n2 : ℚ) / (d2 : ℚ) = 350 * ((p1.1 : ℚ) * 2 ^ p1.2) := by
      rw [hn2def, hd2def]
      push_cast
      rw [mul_pow_shift]
      rw [show ((p1.2.toNat : ℕ) : ℤ) - (((-p1.2).toNat : ℕ) : ℤ) = p1.2 by omega, mul_assoc]
    rw [hval2] at e2
    have e2c := abs_le.mp e2
    have hfin : |(p2.1 : ℚ) * 2 ^ p2.2 - (h : ℚ)| < 1 := by
      rw [abs_lt]
      constructor <;> linarith [e1c.1, e1c.2, e2c.1, e2c.2]
    have hfl := dyadicFloor_eq p2.1 p2.2
    have hfc := abs_lt.mp hfin
    have hfl1 : (h : ℤ) - 1 ≤ ⌊(p2.1 : ℚ) * 2 ^ p2.2⌋ := by
      apply Int.le_floor.mpr
      push_cast
      linarith
    have hfl2 : ⌊(p2.1 : ℚ) * 2 ^ p2.2⌋ < (h : ℤ) + 1 := by
      apply Int.floor_lt.mpr
      push_cast
      linarith
    omega

/-- Witness for C8 at height 29: the hypothesis is satisfiable and the
amended bound holds there (the actual output height is 28 = 29 - 1). -/
theorem resize_width350_float_witness :
    29 ≤ 2 ^ 51 ∧
    ((resizeImageFloat ⟨350, 29⟩).width = 350 ∧
      ((resizeImageFloat ⟨350, 29⟩).height = 29 ∨
        (resizeImageFloat ⟨350, 29⟩).height + 1 = 29)) :=
  ⟨by norm_num, resize_width350_float 29 (by norm_num)⟩

/-- C4 counterexample: a two-byte stream whose cursor is at position 1
before normalization has its cursor at end-of-data (position 2) afterwards —
the `seek(0)` of app.py:54 is followed by PIL's lazy pixel load during the
`resize` on line 58, so the prior position is not restored. -/
theorem resize_stream_cursor_cex :
    ¬ ((resize_image_for_display_stream ⟨[7, 7], 1, ⟨1, 1⟩⟩).2.pos
        = (⟨[7, 7], 1, ⟨1, 1⟩⟩ : ImgStream).pos) := by
  decide

/-- C4 amended: after normalization the stream's cursor sits at end-of-data
(PIL's lazy `load()` during the `resize` on app.py:58 reads the pixel data
after the `seek(0)` of line 54), its bytes and decoded image are unchanged,
and the returned buffer is the resized image — so the cursor equals its
pre-call position only when the stream was already at end-of-data, and
moving the cursor is the normalizer's only side effect besides returning
the buffer. -/
theorem resize_stream_effects (s : ImgStream) :
    (resize_image_for_display_stream s).2 = { s with pos := s.data.length } ∧
    (resize_image_for_display_stream s).1 = resizeImage s.decoded :=
  ⟨rfl, rfl⟩

/-- C3: any failure of the external `agent.run` call is caught inside
`analyze_image` and converted to the user-visible `st.error` message;
`analyze_image` always returns normally (never an uncaught exception) for
every outcome, and after a failure a subsequent successful call still
renders its results (the interaction stays usable). -/
theorem analyze_image_catches (s : ProcState) (e : String) :
    (analyze_image s (.failure e)).2
      = PyResult.ret (.errorMsg ("Error during analysis: " ++ e)) ∧
    (∀ o : CallOutcome, ∃ r : Rendered, (analyze_image s o).2 = PyResult.ret r) ∧
    ∀ c : String,
      (analyze_image (analyze_image s (.failure e)).1 (.success c)).2
        = PyResult.ret (.analysisResults c) :=
  ⟨rfl, fun o => by cases o <;> exact ⟨_, rfl⟩, fun _ => rfl⟩

/-- C1: when the save succeeds, exactly one temporary file (the fresh
`.jpg`) has been added to the filesystem at the moment of the external
call, and for every outcome of that call the flow ends with the filesystem
exactly as it started — the temporary file is always deleted. -/
theorem temp_file_lifecycle (raw : List ℕ) (fresh : String) (callO : CallOutcome)
    (s : ProcState) (fs : FS) :
    (upload_analyze_click raw fresh .ok callO s fs).fsAtCall
      = some ⟨(fresh ++ ".jpg", raw) :: fs.files⟩ ∧
    (upload_analyze_click raw fresh .ok callO s fs).fs = fs := by
  cases callO <;>
    simp [upload_analyze_click, save_uploaded_file, analyze_image, agent_run, unlink,
      List.eraseP_cons]

/-- C7: when persisting the upload raises — whether `NamedTemporaryFile`
creation itself fails, or the subsequent `f.write` fails after the file was
created — the flow renders the `Error saving file` message, returns no
usable path, and makes no analysis call (no agent state change, nothing
passed to the agent).  On a creation failure the filesystem is untouched; on
a write failure the already-created temp file stays behind on disk
(`delete=False`), which the flow does not clean up. -/
theorem save_failure_no_analysis (raw written : List ℕ) (fresh e : String)
    (callO : CallOutcome) (s : ProcState) (fs : FS) :
    (upload_analyze_click raw fresh (.createFail e) callO s fs
      = { proc := s, fsAtCall := none, fs := fs,
          shown := [.errorMsg ("Error saving file: " ++ e)], analyzedPath := none }) ∧
    (upload_analyze_click raw fresh (.writeFail e written) callO s fs
      = { proc := s, fsAtCall := none,
          fs := ⟨(fresh ++ ".jpg", written) :: fs.files⟩,
          shown := [.errorMsg ("Error saving file: " ++ e)], analyzedPath := none }) :=
  ⟨rfl, rfl⟩

/-- C9: the path handed to the external agent is the fresh temp name with
the fixed `.jpg` extension, the file at that path holds exactly the
upload's raw bytes at call time, and what is displayed on screen is the
350-wide normalized image — the normalized buffer is never what gets
submitted. -/
theorem analyzed_bytes_are_raw (stream : ImgStream) (fresh : String)
    (callO : CallOutcome) (s : ProcState) (fs : FS) :
    (upload_tab stream true fresh .ok callO s fs).analyzedPath
      = some (fresh ++ ".jpg") ∧
    ((upload_tab stream true fresh .ok callO s fs).fsAtCall.map
        (fun f => readFile (fresh ++ ".jpg") f)) = some (some stream.data) ∧
    (upload_tab stream true fresh .ok callO s fs).shown.head?
      = some (.displayedImage (resizeImage stream.decoded)) := by
  cases callO <;>
    simp [upload_tab, upload_analyze_click, save_uploaded_file, analyze_image,
      agent_run, readFile, resize_image_for_display_stream, List.find?_cons]

/-- C5: while `analyze_clicked` is true, pressing the example's Analyze
button triggers no analysis call and changes neither the session state nor
the process state. -/
theorem analyze_clicked_suppresses (callO : CallOutcome) (st : SessionState)
    (s : ProcState) (hst : st.analyze_clicked = true) :
    example_analyze_click true callO st s = (st, s, false) := by
  simp [example_analyze_click, hst]

/-- Witness for C5 at a concrete session state with `analyze_clicked` set. -/
theorem analyze_clicked_suppresses_witness :
    (⟨some "images/chocolate_bar.jpg", true⟩ : SessionState).analyze_clicked = true ∧
    example_analyze_click true (.success "ok") ⟨some "images/chocolate_bar.jpg", true⟩
        initProcState
      = (⟨some "images/chocolate_bar.jpg", true⟩, initProcState, false) :=
  ⟨rfl,
    analyze_clicked_suppresses (.success "ok") ⟨some "images/chocolate_bar.jpg", true⟩
      initProcState rfl⟩

/-- C10: pressing an example card's button sets `selected_example` to that
example's path and resets `analyze_clicked` to false, so the next press of
the Analyze button does trigger an analysis call again. -/
theorem example_card_resets (path : String) (st : SessionState)
    (callO : CallOutcome) (s : ProcState) :
    (create_example_card_click path st).selected_example = some path ∧
    (create_example_card_click path st).analyze_clicked = false ∧
    (example_analyze_click true callO (create_example_card_click path st) s).2.2 = true :=
  ⟨rfl, rfl, rfl⟩

lemma analyses_trace_cached (a n : ℕ) (os : List CallOutcome) :
    (analyses_trace ⟨some a, n⟩ os).1 = ⟨some a, n⟩ ∧
    ((analyses_trace ⟨some a, n⟩ os).2.all (fun x => x == a)) = true := by
  induction os with
  | nil => exact ⟨rfl, rfl⟩
  | cons o os ih =>
      have hstep : (analyze_image ⟨some a, n⟩ o).1 = ⟨some a, n⟩ := by
        cases o <;> rfl
      have hag : (get_agent (⟨some a, n⟩ : ProcState)).1 = a := rfl
      refine ⟨?_, ?_⟩
      · show (analyses_trace (analyze_image ⟨some a, n⟩ o).1 os).1 = ⟨some a, n⟩
        rw [hstep]; exact ih.1
      · show ((get_agent (⟨some a, n⟩ : ProcState)).1
              :: (analyses_trace (analyze_image ⟨some a, n⟩ o).1 os).2).all
            (fun x => x == a) = true
        rw [hstep, hag, List.all_cons, ih.2]
        simp

/-- C6: starting from process start, any sequence of analysis calls runs the
agent constructor at most once, and every call in the sequence uses the same
instance (the first-constructed one, id 0). -/
theorem agent_constructed_once (os : List CallOutcome) :
    (analyses_trace initProcState os).1.constructions ≤ 1 ∧
    ((analyses_trace initProcState os).2.all (fun a => a == 0)) = true := by
  cases os with
  | nil => exact ⟨by simp [analyses_trace, initProcState], rfl⟩
  | cons o os =>
      have hstep : (analyze_image initProcState o).1 = ⟨some 0, 1⟩ := by
        cases o <;> rfl
      have h2 := analyses_trace_cached 0 1 os
      refine ⟨?_, ?_⟩
      · show (analyses_trace (analyze_image initProcState o).1 os).1.constructions ≤ 1
        rw [hstep, h2.1]
      · show ((get_agent initProcState).1
              :: (analyses_trace (analyze_image initProcState o).1 os).2).all
            (fun a => a == 0) = true
        rw [hstep, List.all_cons, h2.2]
        simp [get_agent, initProcState]

end ProductDecoder
